import Mathlib

/-!
Verification of the license-manager dashboard's view-model pipeline.

The definitions below are a shallow embedding of the TypeScript source
(the second `App` component and its helpers).  Conventions used throughout:

* timestamps (`new Date(...).getTime()`, the ambient clock `new Date()`)
  are modelled as `Int` milliseconds since the epoch;
* the TS type `string | null` is modelled as `Option String`;
* JS string truthiness (`if (s)`) is `truthy`, which is `false` for both
  `null` and the empty string;
* `String.prototype.toLowerCase` is `lowercase`, `String.prototype.trim`
  is `trimStr`, `String.prototype.includes` is `includes`;
* `Array.prototype.sort` is specified stable by ECMAScript, and every
  comparator in the source is consistent (derived from a total preorder),
  so it is modelled by the stable insertion sort `stableSort`;
* `Math.ceil(a / b)` on JS numbers is modelled by the exact rational
  ceiling `Int.ceil ((a : ℚ) / b)`.
-/

namespace LicenseManager

/-- Model of the TS interface License.  The field expires_at stores the
instant new Date(record.expires_at).getTime() as Int milliseconds. -/
structure License where
  license_key : String
  expires_at : Int
  hwid : Option String
deriving DecidableEq, Repr

/-- The four derived display statuses returned by getLicenseStatus. -/
inductive Status where
  | expired
  | expiring
  | active
  | available
deriving DecidableEq, BEq, Repr

/-- The four values of the filterStatus select control. -/
inductive FilterStatus where
  | all
  | active
  | expired
  | expiring
deriving DecidableEq, Repr

/-- JS truthiness of a string | null value: null and "" are falsy. -/
def truthy : Option String → Bool
  | none => false
  | some s => !(s == "")

/-- Model of String.prototype.toLowerCase (character-wise lowering). -/
def lowercase (s : String) : String :=
  ⟨s.data.map Char.toLower⟩

/-- Model of String.prototype.trim: strip whitespace from both ends. -/
def trimStr (s : String) : String :=
  ⟨((s.data.dropWhile Char.isWhitespace).reverse.dropWhile Char.isWhitespace).reverse⟩

/-- Helper for includes: does the needle start the haystack? -/
def startsWith : List Char → List Char → Bool
  | [], _ => true
  | _ :: _, [] => false
  | a :: as, b :: bs => a == b && startsWith as bs

/-- Helper for includes: does the needle occur anywhere in the haystack? -/
def occursIn (needle : List Char) : List Char → Bool
  | [] => needle.isEmpty
  | c :: rest => startsWith needle (c :: rest) || occursIn needle rest

/-- Model of JS s.includes(sub): sub occurs as a contiguous substring of s. -/
def includes (s sub : String) : Bool :=
  occursIn sub.data s.data

/-- Milliseconds per day, as in the source: 1000 * 60 * 60 * 24. -/
def msPerDay : Int := 1000 * 60 * 60 * 24

/-- Embedding of getLicenseStatus.  The TS function takes only the record;
its `const now = new Date()` reads the ambient wall clock, which is
modelled here as the extra argument now (the clock value at call time). -/
def getLicenseStatus (license : License) (now : Int) : Status :=
  let expiryDate := license.expires_at
  let isExpired : Bool := decide (expiryDate < now)
  let diffTime : Int := expiryDate - now
  let diffDays : ℚ := (diffTime : ℚ) / (msPerDay : ℚ)
  let isExpiringSoon : Bool := !isExpired && decide (diffDays ≤ 7)
  if isExpired then Status.expired
  else if isExpiringSoon then Status.expiring
  else if truthy license.hwid then Status.active
  else Status.available

/-- The search half of the filter in filteredLicenses:
license_key.toLowerCase().includes(term) || (hwid && hwid.toLowerCase().includes(term)). -/
def matchesSearch (l : License) (searchTerm : String) : Bool :=
  includes (lowercase l.license_key) (lowercase searchTerm) ||
    (truthy l.hwid && includes (lowercase (l.hwid.getD "")) (lowercase searchTerm))

/-- The status/date half of the filter in filteredLicenses (the switch on
filterStatus over isExpired / isExpiringSoon, recomputed as in the source). -/
def matchesStatus (l : License) (filterStatus : FilterStatus) (now : Int) : Bool :=
  let expiryDate := l.expires_at
  let isExpired : Bool := decide (expiryDate < now)
  let diffTime : Int := expiryDate - now
  let diffDays : ℚ := (diffTime : ℚ) / (msPerDay : ℚ)
  let isExpiringSoon : Bool := !isExpired && decide (diffDays ≤ 7)
  match filterStatus with
  | FilterStatus.active => !isExpired
  | FilterStatus.expired => isExpired
  | FilterStatus.expiring => isExpiringSoon
  | FilterStatus.all => true

/-- Embedding of the filteredLicenses memo: keep records matching the
search predicate and the status predicate (logical AND). -/
def filteredLicenses (licenses : List License) (searchTerm : String)
    (filterStatus : FilterStatus) (now : Int) : List License :=
  licenses.filter (fun l => matchesSearch l searchTerm && matchesStatus l filterStatus now)

/-- The four sortable columns (type SortField in the source). -/
inductive SortField where
  | license_key
  | status
  | hwid
  | expires_at
deriving DecidableEq, Repr

/-- Sort direction (type SortDirection in the source). -/
inductive SortDirection where
  | asc
  | desc
deriving DecidableEq, Repr

/-- The sortConfig state: a field together with a direction. -/
structure SortConfig where
  field : SortField
  direction : SortDirection
deriving DecidableEq, Repr

/-- dirMultiplier: direction === asc ? 1 : -1. -/
def dirMultiplier : SortDirection → Int
  | SortDirection.asc => 1
  | SortDirection.desc => -1

/-- Three-way comparison of char lists by code point, the model of the
default-locale String.prototype.localeCompare used by the source. -/
def cmpChars : List Char → List Char → Int
  | [], [] => 0
  | [], _ :: _ => -1
  | _ :: _, [] => 1
  | a :: as, b :: bs =>
    if a.toNat < b.toNat then -1
    else if b.toNat < a.toNat then 1
    else cmpChars as bs

/-- Model of a.localeCompare(b): negative, zero or positive Int. -/
def localeCompare (a b : String) : Int :=
  cmpChars a.data b.data

/-- The fixed rank order used by the status sort branch:
const order = [available, active, expiring, expired]. -/
def statusOrder : List Status :=
  [Status.available, Status.active, Status.expiring, Status.expired]

/-- Embedding of the comparator passed to sorted.sort((a, b) => ...). -/
def compareLicenses (cfg : SortConfig) (now : Int) (a b : License) : Int :=
  let m := dirMultiplier cfg.direction
  match cfg.field with
  | SortField.license_key => localeCompare a.license_key b.license_key * m
  | SortField.hwid => localeCompare (a.hwid.getD "") (b.hwid.getD "") * m
  | SortField.status =>
    let diff : Int := (statusOrder.indexOf (getLicenseStatus a now) : Int) -
      (statusOrder.indexOf (getLicenseStatus b now) : Int)
    diff * m
  | SortField.expires_at => (a.expires_at - b.expires_at) * m

/-- Insert x into a list sorted by the comparator, before the first
element y with cmp x y ≤ 0 (so an earlier input element stays before
later elements that compare equal). -/
def insertSorted (cmp : α → α → Int) (x : α) : List α → List α
  | [] => [x]
  | y :: ys => if cmp x y ≤ 0 then x :: y :: ys else y :: insertSorted cmp x ys

/-- Stable insertion sort, the model of Array.prototype.sort(cmp), which
ECMAScript specifies to be stable.  For the consistent comparators the
source uses, the stable-sorted permutation is unique, so this is the
exact behaviour of the source sort. -/
def stableSort (cmp : α → α → Int) : List α → List α
  | [] => []
  | x :: xs => insertSorted cmp x (stableSort cmp xs)

/-- Embedding of the sortedLicenses memo: a sorted copy of the filtered
list ([...filteredLicenses].sort(...)). -/
def sortedLicenses (cfg : SortConfig) (now : Int) (l : List License) : List License :=
  stableSort (compareLicenses cfg now) l

/-- Embedding of totalPages = Math.max(1, Math.ceil(sortedLicenses.length / pageSize)). -/
def totalPages (sorted : List License) (pageSize : Nat) : Nat :=
  max 1 (Int.ceil ((sorted.length : ℚ) / (pageSize : ℚ))).toNat

/-- Embedding of the paginatedLicenses memo:
sortedLicenses.slice(startIdx, startIdx + pageSize) with
startIdx = (currentPage - 1) * pageSize (currentPage is 1-based). -/
def paginatedLicenses (sorted : List License) (currentPage pageSize : Nat) : List License :=
  let startIdx := (currentPage - 1) * pageSize
  (sorted.drop startIdx).take pageSize

/-- handleSort: clicking the same column toggles the direction, clicking a
new column selects it ascending. -/
def handleSort (prev : SortConfig) (f : SortField) : SortConfig :=
  if prev.field = f then
    ⟨f, if prev.direction = SortDirection.asc then SortDirection.desc else SortDirection.asc⟩
  else ⟨f, SortDirection.asc⟩

/-- The dashboard aggregates computed by the stats memo. -/
structure Stats where
  total : Nat
  active : Nat
  expired : Nat
  available : Nat
deriving DecidableEq, Repr

/-- Embedding of the stats memo: counts over the raw (unfiltered) list,
using hwid !== null, new Date(expires_at) < now, and
hwid === null && new Date(expires_at) > now respectively. -/
def stats (licenses : List License) (now : Int) : Stats :=
  { total := licenses.length
    active := (licenses.filter (fun l => l.hwid.isSome)).length
    expired := (licenses.filter (fun l => decide (l.expires_at < now))).length
    available := (licenses.filter (fun l => l.hwid.isNone && decide (now < l.expires_at))).length }

/-- Embedding of the adminEmails memo: split the configuration value on
commas, trim and lowercase each entry, drop falsy (empty) entries. -/
def adminEmails (raw : String) : List String :=
  ((raw.splitOn ",").map (fun email => lowercase (trimStr email))).filter
    (fun e => !(e == ""))

/-- Embedding of the isAuthorized memo.  The argument is user?.email
(none when there is no signed-in user). -/
def isAuthorized (raw : String) (userEmail : Option String) : Bool :=
  if !truthy userEmail then false
  else if (adminEmails raw).length = 0 then true
  else (adminEmails raw).contains (lowercase (userEmail.getD ""))

/-- Outcome of signInWithPassword as seen by handleLogin: a failure
message, or success carrying data.user?.email. -/
inductive SignInResult where
  | failure (msg : String)
  | success (userEmail : Option String)

/-- The observable outcome of handleLogin: whether auth.signOut() was
invoked, and the resulting authError state. -/
structure LoginOutcome where
  signedOut : Bool
  authError : Option String
deriving DecidableEq, Repr

/-- Embedding of handleLogin after the sign-in call resolves: an
unauthorized user (email truthy, non-empty allow-list, no match) gets an
error message and an automatic signOut. -/
def handleLogin (raw : String) (res : SignInResult) : LoginOutcome :=
  match res with
  | SignInResult.failure msg => { signedOut := false, authError := some msg }
  | SignInResult.success userEmail =>
    let signedInEmail := userEmail.map lowercase
    if truthy signedInEmail && decide (0 < (adminEmails raw).length) &&
        !((adminEmails raw).contains (signedInEmail.getD "")) then
      { signedOut := true, authError := some "Tài khoản không có quyền truy cập." }
    else { signedOut := false, authError := none }

/-- The slice of component state that fetchLicenses touches. -/
structure AppState where
  licenses : List License
  error : Option String
  loading : Bool
deriving DecidableEq, Repr

/-- Result of the awaited select call inside fetchLicenses: ok carries
data (possibly null), err carries err.message from the catch branch. -/
inductive FetchResult where
  | ok (data : Option (List License))
  | err (msg : String)

/-- Embedding of fetchLicenses: guarded by isAuthorized and a non-null
client; on success setLicenses(data || []) and setError(null); on failure
only setError(err.message); setLoading(false) runs in finally. -/
def fetchLicenses (authorized hasClient : Bool) (s : AppState) (res : FetchResult) : AppState :=
  if !authorized then s
  else if !hasClient then s
  else
    match res with
    | FetchResult.ok data =>
      { licenses := data.getD [], error := none, loading := false }
    | FetchResult.err msg =>
      { s with error := some msg, loading := false }

/-- The view state governing the table: raw list plus the user-controlled
search, filter, sort and paging parameters. -/
structure ViewState where
  licenses : List License
  searchTerm : String
  filterStatus : FilterStatus
  sortConfig : SortConfig
  pageSize : Nat
  currentPage : Nat
deriving DecidableEq, Repr

/-- Initial component state: useState defaults. -/
def initialState : ViewState :=
  { licenses := []
    searchTerm := ""
    filterStatus := FilterStatus.all
    sortConfig := ⟨SortField.expires_at, SortDirection.asc⟩
    pageSize := 10
    currentPage := 1 }

/-- totalPages as recomputed on a render of state s at instant t. -/
def viewTotalPages (s : ViewState) (t : Int) : Nat :=
  totalPages (sortedLicenses s.sortConfig t
    (filteredLicenses s.licenses s.searchTerm s.filterStatus t)) s.pageSize

/-- User/system events that mutate the view state. -/
inductive Event where
  | setSearch (q : String)
  | setFilter (f : FilterStatus)
  | setPageSize (n : Nat)
  | prevPage
  | nextPage
  | setSort (f : SortField)
  | refresh (l : List License)

/-- The page-size select only offers these options. -/
def pageSizeOptions : List Nat := [10, 25, 50]

/-- Validity of an event: page sizes come from the select options. -/
def eventValid : Event → Prop
  | Event.setPageSize n => n ∈ pageSizeOptions
  | _ => True

/-- The immediate state update of an event handler, without any effect:
the three setters replace their field (a setter receiving the current
value is a React bail-out: no re-render, no effects), prevPage and
nextPage are the pagination buttons setCurrentPage(p => Math.max(1, p - 1))
and setCurrentPage(p => Math.min(totalPages, p + 1)), the latter
evaluated against totalPages of the rendering at instant t. -/
def applyEvent (s : ViewState) (e : Event) (t : Int) : ViewState :=
  match e with
  | Event.setSearch q =>
    if q = s.searchTerm then s else { s with searchTerm := q }
  | Event.setFilter f =>
    if f = s.filterStatus then s else { s with filterStatus := f }
  | Event.setPageSize n =>
    if n = s.pageSize then s else { s with pageSize := n }
  | Event.prevPage => { s with currentPage := max 1 (s.currentPage - 1) }
  | Event.nextPage => { s with currentPage := min (viewTotalPages s t) (s.currentPage + 1) }
  | Event.setSort f => { s with sortConfig := handleSort s.sortConfig f }
  | Event.refresh l => { s with licenses := l }

/-- Whether the reset effect (dependencies [searchTerm, filterStatus,
pageSize]) fires for this event: exactly when one of those three fields
actually changes value. -/
def resetFires (s : ViewState) : Event → Bool
  | Event.setSearch q => decide (q ≠ s.searchTerm)
  | Event.setFilter f => decide (f ≠ s.filterStatus)
  | Event.setPageSize n => decide (n ≠ s.pageSize)
  | _ => false

/-- The clamping effect: if currentPage > totalPages then
setCurrentPage(totalPages), evaluated on the render at instant t. -/
def clampPage (s : ViewState) (t : Int) : ViewState :=
  if viewTotalPages s t < s.currentPage then { s with currentPage := viewTotalPages s t }
  else s

/-- One settled step of the controller.  The handler's update commits a
render; its effects then run in declaration order against that committed
snapshot.  When the reset effect fires, it queues setCurrentPage(1)
first; the clamp effect reads the still-stale currentPage of the same
commit and, if that exceeds the freshly computed totalPages, queues
setCurrentPage(totalPages) afterwards — both are plain value updates, so
the last write wins and the state settles at totalPages, otherwise at 1.
Without a reset, only the clamp effect can fire. -/
def step (s : ViewState) (e : Event) (t : Int) : ViewState :=
  let s1 := applyEvent s e t
  if resetFires s e then
    if viewTotalPages s1 t < s1.currentPage then { s1 with currentPage := viewTotalPages s1 t }
    else { s1 with currentPage := 1 }
  else clampPage s1 t

/-- States reachable from the initial state by valid events; the Int
records the wall-clock instant of the last render. -/
inductive Reachable : ViewState → Int → Prop
  | init (t : Int) : Reachable initialState t
  | next {s : ViewState} {t : Int} (e : Event) (t' : Int) :
    Reachable s t → eventValid e → Reachable (step s e t') t'

/-! ### Basic facts about the classifier -/

theorem msPerDay_pos : (0 : Int) < msPerDay := by
  unfold msPerDay; norm_num

/-- The exact-elapsed-time test diffTime / msPerDay ≤ 7 is the integer
test diffTime ≤ 7 * msPerDay. -/
theorem diffDays_le_iff (d : Int) :
    ((d : ℚ) / ((msPerDay : Int) : ℚ) ≤ 7) ↔ d ≤ 7 * msPerDay := by
  rw [div_le_iff₀ (by exact_mod_cast msPerDay_pos)]
  constructor
  · intro h
    have := (mul_comm (7 : ℚ) ((msPerDay : Int) : ℚ)) ▸ h
    exact_mod_cast this
  · intro h
    rw [mul_comm]
    exact_mod_cast h

/-- Branch-level description of getLicenseStatus with the rational day
count replaced by the equivalent integer millisecond test. -/
theorem getLicenseStatus_eq (l : License) (now : Int) :
    getLicenseStatus l now =
      if l.expires_at < now then Status.expired
      else if l.expires_at - now ≤ 7 * msPerDay then Status.expiring
      else if truthy l.hwid then Status.active
      else Status.available := by
  have h2' := diffDays_le_iff (l.expires_at - now)
  push_cast at h2'
  unfold getLicenseStatus
  by_cases h1 : l.expires_at < now
  · simp [h1]
  · by_cases h2 : l.expires_at - now ≤ 7 * msPerDay
    · simp [h1, h2, h2'.mpr h2]
    · have h2'' : ¬ ((l.expires_at : ℚ) - (now : ℚ)) / ((msPerDay : Int) : ℚ) ≤ 7 :=
        fun h => h2 (h2'.mp h)

      simp [h1, h2, h2'']

/-- A record whose hwid is bound to the empty string: non-null, yet
falsy for the truthiness test if (license.hwid). -/
def emptyHwidRecord : License :=
  { license_key := "K", expires_at := 1000000000000, hwid := some "" }

/-- A record used to probe the classifier at two different clock
readings: it expires 100 ms after the epoch. -/
def probeRecord : License :=
  { license_key := "K", expires_at := 100, hwid := some "h" }

/-- C1 (counterexample): the record emptyHwidRecord evaluated at T = 0 is
neither expired nor expiring and its hwid is non-null, so the claim as
stated requires status active; the source tests if (license.hwid), for
which the bound empty string is falsy, and returns available. -/
theorem c1_counterexample :
    emptyHwidRecord.hwid ≠ none ∧
    ¬ emptyHwidRecord.expires_at < 0 ∧
    ¬ emptyHwidRecord.expires_at - 0 ≤ 7 * msPerDay ∧
    getLicenseStatus emptyHwidRecord 0 ≠ Status.active ∧
    getLicenseStatus emptyHwidRecord 0 = Status.available := by
  refine ⟨by decide, by decide, by decide, ?_, ?_⟩ <;>
    rw [getLicenseStatus_eq] <;> decide

/-- C1 (amended): for every record R and instant T exactly one status is
assigned: expired iff expires_at < T; expiring iff not expired and
expires_at - T is at most 7 days of exact elapsed time; otherwise active
if hwid is non-null and non-empty (JS-truthy) and available if hwid is
null or empty.  In particular expiring takes precedence over active. -/
theorem c1_amended (R : License) (T : Int) :
    (getLicenseStatus R T = Status.expired ↔ R.expires_at < T) ∧
    (getLicenseStatus R T = Status.expiring ↔
      ¬ R.expires_at < T ∧ R.expires_at - T ≤ 7 * msPerDay) ∧
    (getLicenseStatus R T = Status.active ↔
      7 * msPerDay < R.expires_at - T ∧ truthy R.hwid = true) ∧
    (getLicenseStatus R T = Status.available ↔
      7 * msPerDay < R.expires_at - T ∧ truthy R.hwid = false) := by
  rw [getLicenseStatus_eq]
  by_cases h1 : R.expires_at < T
  · have hno : ¬ 7 * msPerDay < R.expires_at - T := by unfold msPerDay; omega
    simp only [if_pos h1]
    exact ⟨by simp [h1], by simp [h1], by simp [hno], by simp [hno]⟩
  · simp only [if_neg h1]
    by_cases h2 : R.expires_at - T ≤ 7 * msPerDay
    · have hno : ¬ 7 * msPerDay < R.expires_at - T := by omega
      simp only [if_pos h2]
      exact ⟨by simp [h1], by simp [h1, h2], by simp [hno], by simp [hno]⟩
    · have hlt : 7 * msPerDay < R.expires_at - T := by omega
      simp only [if_neg h2]
      by_cases h3 : truthy R.hwid = true
      · simp only [if_pos h3]
        exact ⟨by simp [h1], by simp [h2], by simp [hlt, h3], by simp [h3]⟩
      · rw [Bool.not_eq_true] at h3
        simp only [if_neg (by simp [h3] : ¬ truthy R.hwid = true)]
        exact ⟨by simp [h1], by simp [h2], by simp [h3], by simp [hlt, h3]⟩

/-- C7 (counterexample): the source signature is
getLicenseStatus = (license) => ..., so the claimed pure function of the
record with an explicitly passed now would be constant in the ambient
clock; but the internally read new Date() changes the result: the same
record classifies differently at clock readings 0 and 10^12. -/
theorem c7_counterexample :
    getLicenseStatus probeRecord 0 ≠ getLicenseStatus probeRecord 1000000000000 := by
  rw [getLicenseStatus_eq, getLicenseStatus_eq]
  decide

/-- C7 (amended): the classifier is deterministic in the record fields it
reads plus the clock value it obtains internally at call time: two
records agreeing on expires_at and hwid, evaluated at the same internal
clock reading, classify identically (license_key is never consulted). -/
theorem c7_amended (r₁ r₂ : License) (t : Int)
    (h1 : r₁.expires_at = r₂.expires_at) (h2 : r₁.hwid = r₂.hwid) :
    getLicenseStatus r₁ t = getLicenseStatus r₂ t := by
  unfold getLicenseStatus
  rw [h1, h2]

/-- C7 (witness): the amended determinism theorem applied to two concrete
records differing only in license_key. -/
theorem c7_witness :
    (License.mk "A" 100 (some "h")).expires_at = (License.mk "B" 100 (some "h")).expires_at ∧
    (License.mk "A" 100 (some "h")).hwid = (License.mk "B" 100 (some "h")).hwid ∧
    getLicenseStatus (License.mk "A" 100 (some "h")) 0 =
      getLicenseStatus (License.mk "B" 100 (some "h")) 0 :=
  ⟨rfl, rfl, c7_amended (License.mk "A" 100 (some "h")) (License.mk "B" 100 (some "h")) 0 rfl rfl⟩

/-! ### Filter engine -/

theorem status_expired_iff (l : License) (now : Int) :
    getLicenseStatus l now = Status.expired ↔ l.expires_at < now := by
  rw [getLicenseStatus_eq]
  split_ifs with h1 h2 h3 <;> simp [h1]

theorem status_expiring_iff (l : License) (now : Int) :
    getLicenseStatus l now = Status.expiring ↔
      ¬ l.expires_at < now ∧ l.expires_at - now ≤ 7 * msPerDay := by
  rw [getLicenseStatus_eq]
  split_ifs with h1 h2 h3 <;> simp_all

theorem matchesStatus_active (l : License) (now : Int) :
    matchesStatus l FilterStatus.active now = !decide (l.expires_at < now) := rfl

theorem matchesStatus_expired (l : License) (now : Int) :
    matchesStatus l FilterStatus.expired now = decide (l.expires_at < now) := rfl

theorem matchesStatus_expiring (l : License) (now : Int) :
    matchesStatus l FilterStatus.expiring now =
      (!decide (l.expires_at < now) && decide (l.expires_at - now ≤ 7 * msPerDay)) := by
  show (!decide (l.expires_at < now) &&
      decide (((l.expires_at - now : Int) : ℚ) / ((msPerDay : Int) : ℚ) ≤ 7)) = _
  rw [decide_eq_decide.mpr (diffDays_le_iff (l.expires_at - now))]

theorem occursIn_nil (hay : List Char) : occursIn [] hay = true := by
  cases hay <;> simp [occursIn, startsWith]

/-- C2: the filter returns an order-preserving subsequence holding exactly
the records that satisfy the search predicate AND the status predicate;
the empty search term matches everything; the all filter matches
everything; the active filter matches exactly the non-expired records
(union of active, expiring, available); the expired and expiring filters
match exactly the classifier results expired and expiring. -/
theorem c2_filter_spec (l : List License) (term : String) (fs : FilterStatus) (now : Int) :
    (filteredLicenses l term fs now).Sublist l ∧
    (∀ x, x ∈ filteredLicenses l term fs now ↔
      x ∈ l ∧ matchesSearch x term = true ∧ matchesStatus x fs now = true) ∧
    (∀ x : License, matchesSearch x "" = true) ∧
    (∀ x : License, matchesStatus x FilterStatus.all now = true) ∧
    (∀ x : License, matchesStatus x FilterStatus.active now = true ↔
      getLicenseStatus x now ≠ Status.expired) ∧
    (∀ x : License, matchesStatus x FilterStatus.expired now = true ↔
      getLicenseStatus x now = Status.expired) ∧
    (∀ x : License, matchesStatus x FilterStatus.expiring now = true ↔
      getLicenseStatus x now = Status.expiring) := by
  refine ⟨List.filter_sublist l, ?_, ?_, ?_, ?_, ?_, ?_⟩
  · intro x
    rw [filteredLicenses, List.mem_filter, Bool.and_eq_true]
  · intro x
    have hterm : lowercase "" = "" := rfl
    simp [matchesSearch, includes, hterm, occursIn_nil]
  · intro x
    rfl
  · intro x
    rw [matchesStatus_active, ne_eq, status_expired_iff]
    simp
  · intro x
    rw [matchesStatus_expired, status_expired_iff]
    simp
  · intro x
    rw [matchesStatus_expiring, status_expiring_iff]
    simp

/-! ### Sort engine: generic facts about the stable sort -/

theorem insertSorted_skip {α : Type} (cmp : α → α → Int) (x : α) (P Q : List α)
    (h : ∀ y ∈ P, ¬ cmp x y ≤ 0) :
    insertSorted cmp x (P ++ Q) = P ++ insertSorted cmp x Q := by
  induction P with
  | nil => rfl
  | cons y ys ih =>
    simp only [List.cons_append, insertSorted, List.append_eq,
      if_neg (h y (List.mem_cons_self y ys))]
    rw [ih (fun z hz => h z (List.mem_cons_of_mem y hz))]

theorem insertSorted_front {α : Type} (cmp : α → α → Int) (x : α) (Q : List α)
    (h : ∀ y ∈ Q, cmp x y ≤ 0) :
    insertSorted cmp x Q = x :: Q := by
  cases Q with
  | nil => rfl
  | cons y ys => simp only [insertSorted, if_pos (h y (List.mem_cons_self y ys))]

theorem insertSorted_middle {α : Type} (cmp : α → α → Int) (x : α) (P Q : List α)
    (hP : ∀ y ∈ P, ¬ cmp x y ≤ 0) (hQ : ∀ y ∈ Q, cmp x y ≤ 0) :
    insertSorted cmp x (P ++ Q) = P ++ x :: Q := by
  rw [insertSorted_skip cmp x P Q hP, insertSorted_front cmp x Q hQ]

theorem insertSorted_perm {α : Type} (cmp : α → α → Int) (x : α) (l : List α) :
    (insertSorted cmp x l).Perm (x :: l) := by
  induction l with
  | nil => exact List.Perm.refl _
  | cons y ys ih =>
    by_cases h : cmp x y ≤ 0
    · simp only [insertSorted, if_pos h]
      exact List.Perm.refl _
    · simp only [insertSorted, if_neg h]
      exact (ih.cons y).trans (List.Perm.swap x y ys)

theorem stableSort_perm {α : Type} (cmp : α → α → Int) (l : List α) :
    (stableSort cmp l).Perm l := by
  induction l with
  | nil => exact List.Perm.refl _
  | cons x xs ih =>
    simp only [stableSort]
    exact (insertSorted_perm cmp x (stableSort cmp xs)).trans (ih.cons x)

/-- The elements of l whose rank under k is exactly i, in input order. -/
def rankBucket {α : Type} (k : α → Nat) (i : Nat) (l : List α) : List α :=
  l.filter (fun x => k x == i)

theorem mem_rankBucket_eq {α : Type} {k : α → Nat} {i : Nat} {l : List α} {y : α}
    (h : y ∈ rankBucket k i l) : k y = i := by
  have := (List.mem_filter.mp h).2
  simpa using this

theorem rankBucket_cons {α : Type} (k : α → Nat) (i : Nat) (x : α) (xs : List α) :
    rankBucket k i (x :: xs) =
      if k x = i then x :: rankBucket k i xs else rankBucket k i xs := by
  simp only [rankBucket, List.filter_cons, beq_iff_eq]

/-- A stable sort driven by a comparator that realises a rank function
with values below 4 lays the list out as its four rank buckets in rank
order, each bucket keeping the input order (the stability property). -/
theorem stableSort_four_buckets {α : Type} (k : α → Nat) (cmp : α → α → Int)
    (hcmp : ∀ a b, cmp a b ≤ 0 ↔ k a ≤ k b)
    (l : List α) (hk : ∀ a ∈ l, k a < 4) :
    stableSort cmp l =
      rankBucket k 0 l ++ rankBucket k 1 l ++ rankBucket k 2 l ++ rankBucket k 3 l := by
  induction l with
  | nil => rfl
  | cons x xs ih =>
    have hk' : ∀ a ∈ xs, k a < 4 := fun a ha => hk a (List.mem_cons_of_mem x ha)
    have hx : k x < 4 := hk x (List.mem_cons_self x xs)
    simp only [stableSort, ih hk']
    rcases (by omega : k x = 0 ∨ k x = 1 ∨ k x = 2 ∨ k x = 3) with h | h | h | h
    · have hfront : ∀ y ∈ rankBucket k 0 xs ++ rankBucket k 1 xs ++
          rankBucket k 2 xs ++ rankBucket k 3 xs, cmp x y ≤ 0 := by
        intro y _
        rw [hcmp, h]
        omega
      rw [insertSorted_front cmp x _ hfront]
      simp [rankBucket_cons, h]
    · have hskip : ∀ y ∈ rankBucket k 0 xs, ¬ cmp x y ≤ 0 := by
        intro y hy
        rw [hcmp, h, mem_rankBucket_eq hy]
        omega
      have hfront : ∀ y ∈ rankBucket k 1 xs ++ (rankBucket k 2 xs ++ rankBucket k 3 xs),
          cmp x y ≤ 0 := by
        intro y hy
        rw [hcmp, h]
        rcases List.mem_append.mp hy with hy | hy
        · have := mem_rankBucket_eq hy
          omega
        · rcases List.mem_append.mp hy with hy | hy <;> have h9 := mem_rankBucket_eq hy <;> omega
      rw [List.append_assoc, List.append_assoc,
        insertSorted_middle cmp x _ _ hskip hfront]
      simp [rankBucket_cons, h, List.append_assoc]
    · have hskip : ∀ y ∈ rankBucket k 0 xs ++ rankBucket k 1 xs, ¬ cmp x y ≤ 0 := by
        intro y hy
        rw [hcmp, h]
        rcases List.mem_append.mp hy with hy | hy <;> have h9 := mem_rankBucket_eq hy <;> omega
      have hfront : ∀ y ∈ rankBucket k 2 xs ++ rankBucket k 3 xs, cmp x y ≤ 0 := by
        intro y hy
        rw [hcmp, h]
        rcases List.mem_append.mp hy with hy | hy <;> have h9 := mem_rankBucket_eq hy <;> omega
      rw [List.append_assoc (rankBucket k 0 xs ++ rankBucket k 1 xs),
        insertSorted_middle cmp x _ _ hskip hfront]
      simp [rankBucket_cons, h, List.append_assoc]
    · have hskip : ∀ y ∈ rankBucket k 0 xs ++ rankBucket k 1 xs ++ rankBucket k 2 xs,
          ¬ cmp x y ≤ 0 := by
        intro y hy
        rw [hcmp, h]
        rcases List.mem_append.mp hy with hy | hy
        · rcases List.mem_append.mp hy with hy | hy <;> have h9 := mem_rankBucket_eq hy <;> omega
        · have := mem_rankBucket_eq hy
          omega
      have hfront : ∀ y ∈ rankBucket k 3 xs, cmp x y ≤ 0 := by
        intro y hy
        rw [hcmp, h]
        have := mem_rankBucket_eq hy
        omega
      rw [insertSorted_middle cmp x _ _ hskip hfront]
      simp [rankBucket_cons, h, List.append_assoc]

/-! ### Sort engine: the status comparator -/

/-- The ordinal rank order.indexOf(getLicenseStatus(x)) used by the
status branch of the comparator. -/
def statusRank (now : Int) (a : License) : Nat :=
  statusOrder.indexOf (getLicenseStatus a now)

theorem statusRank_lt (now : Int) (a : License) : statusRank now a < 4 := by
  unfold statusRank
  cases getLicenseStatus a now <;> decide

theorem compare_status_asc (now : Int) (a b : License) :
    compareLicenses ⟨SortField.status, SortDirection.asc⟩ now a b ≤ 0 ↔
      statusRank now a ≤ statusRank now b := by
  show ((statusRank now a : Int) - (statusRank now b : Int)) * 1 ≤ 0 ↔ _
  omega

/-- The rank realised by the negated (descending) status comparator. -/
def statusRankDesc (now : Int) (a : License) : Nat :=
  3 - statusRank now a

theorem compare_status_desc (now : Int) (a b : License) :
    compareLicenses ⟨SortField.status, SortDirection.desc⟩ now a b ≤ 0 ↔
      statusRankDesc now a ≤ statusRankDesc now b := by
  have ha := statusRank_lt now a
  have hb := statusRank_lt now b
  unfold statusRankDesc
  show ((statusRank now a : Int) - (statusRank now b : Int)) * (-1) ≤ 0 ↔ _
  omega

/-- The records of l classified with status s, in input order. -/
def statusBucket (s : Status) (now : Int) (l : List License) : List License :=
  l.filter (fun x => getLicenseStatus x now == s)

theorem rankBucket_statusBucket_asc (now : Int) (l : List License) :
    rankBucket (statusRank now) 0 l = statusBucket Status.available now l ∧
    rankBucket (statusRank now) 1 l = statusBucket Status.active now l ∧
    rankBucket (statusRank now) 2 l = statusBucket Status.expiring now l ∧
    rankBucket (statusRank now) 3 l = statusBucket Status.expired now l := by
  refine ⟨?_, ?_, ?_, ?_⟩ <;>
    · apply List.filter_congr
      intro x _
      unfold statusRank
      cases getLicenseStatus x now <;> rfl

theorem rankBucket_statusBucket_desc (now : Int) (l : List License) :
    rankBucket (statusRankDesc now) 0 l = statusBucket Status.expired now l ∧
    rankBucket (statusRankDesc now) 1 l = statusBucket Status.expiring now l ∧
    rankBucket (statusRankDesc now) 2 l = statusBucket Status.active now l ∧
    rankBucket (statusRankDesc now) 3 l = statusBucket Status.available now l := by
  refine ⟨?_, ?_, ?_, ?_⟩ <;>
    · apply List.filter_congr
      intro x _
      unfold statusRankDesc statusRank
      cases getLicenseStatus x now <;> rfl

/-- Sorting by status ascending lays out the four status buckets in rank
order, each in input order. -/
theorem sortedLicenses_status_asc (now : Int) (l : List License) :
    sortedLicenses ⟨SortField.status, SortDirection.asc⟩ now l =
      statusBucket Status.available now l ++ statusBucket Status.active now l ++
        statusBucket Status.expiring now l ++ statusBucket Status.expired now l := by
  have h := stableSort_four_buckets (statusRank now)
    (compareLicenses ⟨SortField.status, SortDirection.asc⟩ now)
    (fun a b => compare_status_asc now a b) l (fun a _ => statusRank_lt now a)
  have hb := rankBucket_statusBucket_asc now l
  rw [sortedLicenses, h, hb.1, hb.2.1, hb.2.2.1, hb.2.2.2]

/-- Sorting by status descending lays out the buckets in the reversed
rank order, each bucket still in input order. -/
theorem sortedLicenses_status_desc (now : Int) (l : List License) :
    sortedLicenses ⟨SortField.status, SortDirection.desc⟩ now l =
      statusBucket Status.expired now l ++ statusBucket Status.expiring now l ++
        statusBucket Status.active now l ++ statusBucket Status.available now l := by
  have h := stableSort_four_buckets (statusRankDesc now)
    (compareLicenses ⟨SortField.status, SortDirection.desc⟩ now)
    (fun a b => compare_status_desc now a b) l
    (fun a _ => by unfold statusRankDesc; have := statusRank_lt now a; omega)
  have hb := rankBucket_statusBucket_desc now l
  rw [sortedLicenses, h, hb.1, hb.2.1, hb.2.2.1, hb.2.2.2]

/-! ### Sort engine: generic stability for equal keys -/

theorem filter_insertSorted_pos {α : Type} (cmp : α → α → Int) (p : α → Bool) (x : α)
    (L : List α) (hx : p x = true) (h : ∀ y ∈ L, p y = true → cmp x y ≤ 0) :
    (insertSorted cmp x L).filter p = x :: L.filter p := by
  induction L with
  | nil => simp [insertSorted, hx]
  | cons y ys ih =>
    by_cases hc : cmp x y ≤ 0
    · simp [insertSorted, hc, List.filter_cons, hx]
    · have hpy : p y = false := by
        rcases Bool.eq_false_or_eq_true (p y) with hh | hh
        · exact absurd (h y (List.mem_cons_self y ys) hh) hc
        · exact hh
      simp only [insertSorted, if_neg hc, List.filter_cons, hpy]
      simp only [Bool.false_eq_true, if_false]
      exact ih (fun z hz hpz => h z (List.mem_cons_of_mem y hz) hpz)

theorem filter_insertSorted_neg {α : Type} (cmp : α → α → Int) (p : α → Bool) (x : α)
    (L : List α) (hx : p x = false) :
    (insertSorted cmp x L).filter p = L.filter p := by
  induction L with
  | nil => simp [insertSorted, hx]
  | cons y ys ih =>
    by_cases hc : cmp x y ≤ 0
    · simp [insertSorted, hc, List.filter_cons, hx]
    · simp only [insertSorted, if_neg hc, List.filter_cons]
      rw [ih]

/-- Generic stability of the stable sort: restricting the output to any
class of mutually tied elements leaves the input order unchanged. -/
theorem stableSort_stable {α : Type} (cmp : α → α → Int) (p : α → Bool)
    (hp : ∀ x y, p x = true → p y = true → cmp x y ≤ 0) (l : List α) :
    (stableSort cmp l).filter p = l.filter p := by
  induction l with
  | nil => rfl
  | cons x xs ih =>
    simp only [stableSort]
    rcases Bool.eq_false_or_eq_true (p x) with hx | hx
    · rw [filter_insertSorted_pos cmp p x (stableSort cmp xs) hx
        (fun y _ hy => hp x y hx hy), ih, List.filter_cons, hx]
      simp
    · rw [filter_insertSorted_neg cmp p x (stableSort cmp xs) hx, ih, List.filter_cons, hx]
      simp

theorem cmpChars_self (cs : List Char) : cmpChars cs cs = 0 := by
  induction cs with
  | nil => rfl
  | cons c cs ih => simp [cmpChars, ih]

theorem localeCompare_self (s : String) : localeCompare s s = 0 :=
  cmpChars_self s.data

/-- Records with equal expires_at are tied under the expires_at
comparator, in either direction. -/
theorem compare_expires_tied (dir : SortDirection) (now : Int) (a b : License)
    (h : a.expires_at = b.expires_at) :
    compareLicenses ⟨SortField.expires_at, dir⟩ now a b = 0 := by
  show (a.expires_at - b.expires_at) * dirMultiplier dir = 0
  rw [h, sub_self, zero_mul]

/-- Records with equal license_key are tied under the license_key
comparator, in either direction. -/
theorem compare_key_tied (dir : SortDirection) (now : Int) (a b : License)
    (h : a.license_key = b.license_key) :
    compareLicenses ⟨SortField.license_key, dir⟩ now a b = 0 := by
  show localeCompare a.license_key b.license_key * dirMultiplier dir = 0
  rw [h, localeCompare_self, zero_mul]

/-- Records with the same hwid string (absent hwid read as "") are tied
under the hwid comparator, in either direction. -/
theorem compare_hwid_tied (dir : SortDirection) (now : Int) (a b : License)
    (h : a.hwid.getD "" = b.hwid.getD "") :
    compareLicenses ⟨SortField.hwid, dir⟩ now a b = 0 := by
  show localeCompare (a.hwid.getD "") (b.hwid.getD "") * dirMultiplier dir = 0
  rw [h, localeCompare_self, zero_mul]

/-- Scenario record with status expired at instant 0. -/
def recExpired : License := { license_key := "E", expires_at := -1, hwid := none }

/-- Scenario record with status available at instant 0. -/
def recAvailable : License := { license_key := "AV", expires_at := 1000000000000, hwid := none }

/-- Scenario record with status active at instant 0. -/
def recActive : License := { license_key := "AC", expires_at := 1000000000000, hwid := some "h" }

/-- C3: the sort permutes its input and is stable for equal keys: for
every sort config, restricting the output to any class of mutually tied
records (comparator value 0) keeps the input order, which for the
status field means the four status buckets appear in the fixed rank
order available < active < expiring < expired with ties in input order,
and for license_key, hwid and expires_at means records with an equal
key keep input order under asc and desc alike; descending merely
negates the comparator, so it never reverses tied elements; and the
spec scenario [expired, available, active] sorts ascending to
[available, active, expired]. -/
theorem c3_sort_spec (cfg : SortConfig) (now : Int) (l : List License) :
    (sortedLicenses cfg now l).Perm l ∧
    (sortedLicenses ⟨SortField.status, SortDirection.asc⟩ now l =
      statusBucket Status.available now l ++ statusBucket Status.active now l ++
        statusBucket Status.expiring now l ++ statusBucket Status.expired now l) ∧
    (sortedLicenses ⟨SortField.status, SortDirection.desc⟩ now l =
      statusBucket Status.expired now l ++ statusBucket Status.expiring now l ++
        statusBucket Status.active now l ++ statusBucket Status.available now l) ∧
    (∀ (f : SortField) (a b : License),
      compareLicenses ⟨f, SortDirection.desc⟩ now a b =
        - compareLicenses ⟨f, SortDirection.asc⟩ now a b) ∧
    (∀ p : License → Bool,
      (∀ x y, p x = true → p y = true → compareLicenses cfg now x y = 0) →
      (sortedLicenses cfg now l).filter p = l.filter p) ∧
    (∀ (dir : SortDirection) (t : Int),
      (sortedLicenses ⟨SortField.expires_at, dir⟩ now l).filter
          (fun x => x.expires_at == t) =
        l.filter (fun x => x.expires_at == t)) ∧
    (∀ (dir : SortDirection) (k : String),
      (sortedLicenses ⟨SortField.license_key, dir⟩ now l).filter
          (fun x => x.license_key == k) =
        l.filter (fun x => x.license_key == k)) ∧
    (∀ (dir : SortDirection) (w : String),
      (sortedLicenses ⟨SortField.hwid, dir⟩ now l).filter
          (fun x => x.hwid.getD "" == w) =
        l.filter (fun x => x.hwid.getD "" == w)) ∧
    sortedLicenses ⟨SortField.status, SortDirection.asc⟩ 0
        [recExpired, recAvailable, recActive] = [recAvailable, recActive, recExpired] := by
  refine ⟨stableSort_perm _ l, sortedLicenses_status_asc now l,
    sortedLicenses_status_desc now l, ?_, ?_, ?_, ?_, ?_, ?_⟩
  · intro f a b
    cases f <;> simp only [compareLicenses, dirMultiplier] <;> ring
  · intro p hp
    exact stableSort_stable _ p (fun x y hx hy => le_of_eq (hp x y hx hy)) l
  · intro dir t
    exact stableSort_stable _ _ (fun x y hx hy => le_of_eq
      (compare_expires_tied dir now x y (by rw [eq_of_beq hx, eq_of_beq hy]))) l
  · intro dir k
    exact stableSort_stable _ _ (fun x y hx hy => le_of_eq
      (compare_key_tied dir now x y (by rw [eq_of_beq hx, eq_of_beq hy]))) l
  · intro dir w
    exact stableSort_stable _ _ (fun x y hx hy => le_of_eq
      (compare_hwid_tied dir now x y (by rw [eq_of_beq hx, eq_of_beq hy]))) l
  · have hE : getLicenseStatus recExpired 0 = Status.expired := by
      rw [getLicenseStatus_eq]; decide
    have hAV : getLicenseStatus recAvailable 0 = Status.available := by
      rw [getLicenseStatus_eq]; decide
    have hAC : getLicenseStatus recActive 0 = Status.active := by
      rw [getLicenseStatus_eq]; decide
    rw [sortedLicenses_status_asc]
    simp only [statusBucket, List.filter_cons, List.filter_nil, hE, hAV, hAC]
    decide

/-- C3 (witness): the general stability conjunct applied at the
descending expires_at sort of two records that tie on expires_at, with
the mutual-tie hypothesis discharged. -/
theorem c3_witness :
    (∀ x y : License,
        (x.expires_at == 1000000000000) = true →
        (y.expires_at == 1000000000000) = true →
        compareLicenses ⟨SortField.expires_at, SortDirection.desc⟩ 0 x y = 0) ∧
    (sortedLicenses ⟨SortField.expires_at, SortDirection.desc⟩ 0
        [recAvailable, recActive]).filter (fun x => x.expires_at == 1000000000000) =
      [recAvailable, recActive].filter (fun x => x.expires_at == 1000000000000) := by
  have hp : ∀ x y : License,
      (x.expires_at == 1000000000000) = true →
      (y.expires_at == 1000000000000) = true →
      compareLicenses ⟨SortField.expires_at, SortDirection.desc⟩ 0 x y = 0 := by
    intro x y hx hy
    exact compare_expires_tied SortDirection.desc 0 x y (by rw [eq_of_beq hx, eq_of_beq hy])
  exact ⟨hp, (c3_sort_spec ⟨SortField.expires_at, SortDirection.desc⟩ 0
    [recAvailable, recActive]).2.2.2.2.1 (fun x => x.expires_at == 1000000000000) hp⟩

/-! ### Paginator -/

theorem ceilDiv_mul_ge (len ps : Nat) (hps : 1 ≤ ps) :
    len ≤ (len + ps - 1) / ps * ps := by
  by_contra hcon
  push_neg at hcon
  have h1 : ((len + ps - 1) / ps + 1) * ps ≤ len + ps - 1 := by
    have h0 : (len + ps - 1) / ps * ps + ps ≤ len + ps - 1 := by omega
    calc ((len + ps - 1) / ps + 1) * ps = (len + ps - 1) / ps * ps + ps := by ring
      _ ≤ len + ps - 1 := h0
  have h2 := (Nat.le_div_iff_mul_le (by omega : 0 < ps)).mpr h1
  omega

/-- The rational ceiling Math.ceil(len / ps) agrees with the natural
ceiling division (len + ps - 1) / ps for ps ≥ 1. -/
theorem totalPages_eq (l : List License) (ps : Nat) (hps : 1 ≤ ps) :
    totalPages l ps = max 1 ((l.length + ps - 1) / ps) := by
  unfold totalPages
  congr 1
  have hps0 : (0 : ℚ) < (ps : ℚ) := by exact_mod_cast hps
  have hA : (l.length + ps - 1) / ps * ps ≤ l.length + ps - 1 :=
    Nat.div_mul_le_self (l.length + ps - 1) ps
  have hB := ceilDiv_mul_ge l.length ps hps
  have hqq : Int.ceil ((l.length : ℚ) / (ps : ℚ)) = ((l.length + ps - 1) / ps : Nat) := by
    rw [Int.ceil_eq_iff]
    constructor
    · rw [lt_div_iff₀ hps0]
      have hA' : (((l.length + ps - 1) / ps : Nat) : ℚ) * (ps : ℚ) ≤ (l.length : ℚ) + (ps : ℚ) - 1 := by
        have := hA
        have hcast : ((l.length + ps - 1 : Nat) : ℚ) = (l.length : ℚ) + (ps : ℚ) - 1 := by
          have h1 : (1 : Nat) ≤ l.length + ps := by omega
          push_cast [Nat.cast_sub h1]
          ring
        calc (((l.length + ps - 1) / ps : Nat) : ℚ) * (ps : ℚ)
            = (((l.length + ps - 1) / ps * ps : Nat) : ℚ) := by push_cast; ring
          _ ≤ ((l.length + ps - 1 : Nat) : ℚ) := by exact_mod_cast hA
          _ = (l.length : ℚ) + (ps : ℚ) - 1 := hcast
      have hB' : (1 : ℚ) ≤ (ps : ℚ) := by exact_mod_cast hps
      rw [Int.cast_natCast]
      linarith
    · rw [div_le_iff₀ hps0]
      exact_mod_cast hB
  rw [hqq]
  exact Int.toNat_natCast _

/-- Concatenating n consecutive ps-sized slices of a list of length at
most n * ps reconstructs the list. -/
theorem pages_reconstruct {α : Type} (ps : Nat) :
    ∀ (n : Nat) (l : List α), l.length ≤ n * ps →
      (((List.range n).map (fun i => (l.drop (i * ps)).take ps)).flatten) = l := by
  intro n
  induction n with
  | zero =>
    intro l hl
    simp only [Nat.zero_mul, Nat.le_zero] at hl
    simp [List.length_eq_zero.mp hl]
  | succ n ih =>
    intro l hl
    have hmul : (n + 1) * ps = n * ps + ps := Nat.succ_mul n ps
    rw [List.range_succ_eq_map]
    simp only [List.map_cons, List.map_map, Function.comp_def, Nat.succ_eq_add_one, Nat.zero_mul,
      List.drop_zero, List.flatten]
    have hpt : ∀ i : Nat, (l.drop ((i + 1) * ps)).take ps = ((l.drop ps).drop (i * ps)).take ps := by
      intro i
      rw [List.drop_drop]
      congr 1
      rw [add_one_mul, Nat.add_comm]
    simp only [hpt]
    have hlen : (l.drop ps).length ≤ n * ps := by
      rw [List.length_drop]
      omega
    rw [ih (l.drop ps) hlen, List.take_append_drop]

/-- C5: every page has at most pageSize records, and the pages for
indices 1 .. totalPages concatenate back to the whole list — no gaps,
no duplicates. -/
theorem c5_pagination_partition (l : List License) (ps : Nat) (hps : 1 ≤ ps) :
    (∀ page : Nat, (paginatedLicenses l page ps).length ≤ ps) ∧
    ((List.range (totalPages l ps)).map (fun i => paginatedLicenses l (i + 1) ps)).flatten = l := by
  constructor
  · intro page
    unfold paginatedLicenses
    simp [List.length_take]
  · have hlen : l.length ≤ totalPages l ps * ps := by
      rw [totalPages_eq l ps hps]
      calc l.length ≤ (l.length + ps - 1) / ps * ps := ceilDiv_mul_ge l.length ps hps
        _ ≤ max 1 ((l.length + ps - 1) / ps) * ps :=
          Nat.mul_le_mul_right ps (le_max_right _ _)
    have hpt : ∀ i : Nat, paginatedLicenses l (i + 1) ps = (l.drop (i * ps)).take ps := by
      intro i
      unfold paginatedLicenses
      simp
    simp only [hpt]
    exact pages_reconstruct ps (totalPages l ps) l hlen

/-- C5 (witness): the partition property at a concrete list of three
records with page size 2. -/
theorem c5_witness :
    1 ≤ 2 ∧
    ((∀ page : Nat,
        (paginatedLicenses [recExpired, recAvailable, recActive] page 2).length ≤ 2) ∧
      ((List.range (totalPages [recExpired, recAvailable, recActive] 2)).map
          (fun i => paginatedLicenses [recExpired, recAvailable, recActive] (i + 1) 2)).flatten =
        [recExpired, recAvailable, recActive]) :=
  ⟨by decide, c5_pagination_partition [recExpired, recAvailable, recActive] 2 (by decide)⟩

/-- C4: totalPages is max(1, ceil(len / pageSize)); the page is the
slice records[(page-1)*pageSize : (page-1)*pageSize + pageSize] clipped
to bounds; and the empty list yields one (empty) page, never zero. -/
theorem c4_paginator_spec (l : List License) (ps page : Nat) (hps : 1 ≤ ps) :
    totalPages l ps = max 1 ((l.length + ps - 1) / ps) ∧
    paginatedLicenses l page ps = (l.drop ((page - 1) * ps)).take ps ∧
    totalPages [] ps = 1 ∧
    paginatedLicenses [] page ps = [] := by
  refine ⟨totalPages_eq l ps hps, rfl, ?_, by simp [paginatedLicenses]⟩
  rw [totalPages_eq [] ps hps]
  simp only [List.length_nil, Nat.zero_add]
  rw [Nat.div_eq_of_lt (by omega)]
  decide

/-- C4 (witness): the paginator properties at a concrete list of three
records, page size 2, page index 2. -/
theorem c4_witness :
    1 ≤ 2 ∧
    (totalPages [recExpired, recAvailable, recActive] 2 =
        max 1 ((([recExpired, recAvailable, recActive] : List License).length + 2 - 1) / 2) ∧
      paginatedLicenses [recExpired, recAvailable, recActive] 2 2 =
        (([recExpired, recAvailable, recActive] : List License).drop ((2 - 1) * 2)).take 2 ∧
      totalPages [] 2 = 1 ∧
      paginatedLicenses [] 2 2 = []) := by
  refine ⟨by decide, ?_⟩
  exact c4_paginator_spec [recExpired, recAvailable, recActive] 2 2 (by decide)

/-! ### View-model controller: page bounds -/

theorem totalPages_pos (l : List License) (ps : Nat) : 1 ≤ totalPages l ps :=
  le_max_left 1 _

theorem viewTotalPages_pos (s : ViewState) (t : Int) : 1 ≤ viewTotalPages s t :=
  totalPages_pos _ _

/-- The recomputed totalPages does not read currentPage. -/
theorem viewTotalPages_set_page (s : ViewState) (p : Nat) (t : Int) :
    viewTotalPages { s with currentPage := p } t = viewTotalPages s t := rfl

/-- totalPages in terms of the filtered list alone: the sort is a
permutation, so it preserves the length. -/
theorem viewTotalPages_eq_of (s : ViewState) (t : Int) (hps : 1 ≤ s.pageSize) :
    viewTotalPages s t =
      max 1 (((filteredLicenses s.licenses s.searchTerm s.filterStatus t).length +
        s.pageSize - 1) / s.pageSize) := by
  unfold viewTotalPages
  have hlen : (sortedLicenses s.sortConfig t
      (filteredLicenses s.licenses s.searchTerm s.filterStatus t)).length =
      (filteredLicenses s.licenses s.searchTerm s.filterStatus t).length :=
    (stableSort_perm _ _).length_eq
  rw [totalPages_eq _ _ hps, hlen]

theorem clampPage_of_le (s : ViewState) (t : Int)
    (h : s.currentPage ≤ viewTotalPages s t) : clampPage s t = s := by
  unfold clampPage
  rw [if_neg (Nat.not_lt.mpr h)]

theorem applyEvent_page_pos (s : ViewState) (e : Event) (t : Int)
    (h1 : 1 ≤ s.currentPage) : 1 ≤ (applyEvent s e t).currentPage := by
  cases e with
  | setSearch q =>
    by_cases h : q = s.searchTerm <;> simp [applyEvent, h, h1]
  | setFilter f =>
    by_cases h : f = s.filterStatus <;> simp [applyEvent, h, h1]
  | setPageSize n =>
    by_cases h : n = s.pageSize <;> simp [applyEvent, h, h1]
  | prevPage => exact le_max_left 1 _
  | nextPage => exact le_min (viewTotalPages_pos s t) (by omega)
  | setSort f => exact h1
  | refresh l => exact h1

theorem step_page_bounds (s : ViewState) (e : Event) (t : Int)
    (h1 : 1 ≤ s.currentPage) :
    1 ≤ (step s e t).currentPage ∧
      (step s e t).currentPage ≤ viewTotalPages (step s e t) t := by
  have happ := applyEvent_page_pos s e t h1
  have htp := viewTotalPages_pos (applyEvent s e t) t
  unfold step
  by_cases hrf : resetFires s e = true
  · rw [if_pos hrf]
    split_ifs with hc
    · exact ⟨htp, le_refl _⟩
    · exact ⟨le_refl 1, htp⟩
  · rw [if_neg hrf]
    unfold clampPage
    split_ifs with hc
    · exact ⟨htp, le_refl _⟩
    · exact ⟨happ, by omega⟩

theorem reachable_page_bounds (s : ViewState) (t : Int) (h : Reachable s t) :
    1 ≤ s.currentPage ∧ s.currentPage ≤ viewTotalPages s t := by
  induction h with
  | init t => exact ⟨le_refl 1, viewTotalPages_pos initialState t⟩
  | next e t' hr hv ih => exact step_page_bounds _ e t' ih.1

/-- The three setter handlers never touch currentPage themselves. -/
theorem applyEvent_reset_page (s : ViewState) (e : Event) (t : Int)
    (hrf : resetFires s e = true) :
    (applyEvent s e t).currentPage = s.currentPage := by
  cases e with
  | setSearch q => simp only [applyEvent]; split_ifs <;> rfl
  | setFilter f => simp only [applyEvent]; split_ifs <;> rfl
  | setPageSize n => simp only [applyEvent]; split_ifs <;> rfl
  | prevPage => simp [resetFires] at hrf
  | nextPage => simp [resetFires] at hrf
  | setSort f => simp [resetFires] at hrf
  | refresh l => simp [resetFires] at hrf

/-- Where a step with a firing reset effect settles: at 1 when the
stored page is within the fresh totalPages, else at the fresh
totalPages, because the clamp effect reads the pre-reset page and its
write is dispatched after the reset's. -/
theorem step_reset_settle (s : ViewState) (e : Event) (t : Int)
    (hrf : resetFires s e = true) :
    (s.currentPage ≤ viewTotalPages (applyEvent s e t) t →
      (step s e t).currentPage = 1) ∧
    (viewTotalPages (applyEvent s e t) t < s.currentPage →
      (step s e t).currentPage = viewTotalPages (applyEvent s e t) t) := by
  have hpage := applyEvent_reset_page s e t hrf
  constructor
  · intro hle
    unfold step
    rw [if_pos hrf, if_neg (by rw [hpage]; omega)]
  · intro hlt
    unfold step
    rw [if_pos hrf, if_pos (by rw [hpage]; exact hlt)]

theorem step_clamp_eq (s : ViewState) (e : Event) (t : Int)
    (hrf : resetFires s e = false)
    (h : viewTotalPages (applyEvent s e t) t < (applyEvent s e t).currentPage) :
    (step s e t).currentPage = viewTotalPages (applyEvent s e t) t := by
  unfold step
  rw [if_neg (by simp [hrf])]
  unfold clampPage
  rw [if_pos h]

theorem step_nextPage_eq (s : ViewState) (t : Int) :
    step s Event.nextPage t =
      { s with currentPage := min (viewTotalPages s t) (s.currentPage + 1) } := by
  unfold step
  rw [if_neg (by simp [resetFires])]
  exact clampPage_of_le _ _ (by
    show min (viewTotalPages s t) (s.currentPage + 1) ≤ viewTotalPages s t
    exact min_le_left _ _)

theorem step_refresh_eq (s : ViewState) (l : List License) (t : Int)
    (h : s.currentPage ≤ viewTotalPages { s with licenses := l } t) :
    step s (Event.refresh l) t = { s with licenses := l } := by
  unfold step
  rw [if_neg (by simp [resetFires])]
  exact clampPage_of_le _ _ h

/-- Twenty-one unbound, far-from-expiry records: eleven whose key holds
the letter a and ten whose key does not. -/
def cexList : List License :=
  [⟨"a01", 1000000000000, none⟩, ⟨"a02", 1000000000000, none⟩, ⟨"a03", 1000000000000, none⟩,
   ⟨"a04", 1000000000000, none⟩, ⟨"a05", 1000000000000, none⟩, ⟨"a06", 1000000000000, none⟩,
   ⟨"a07", 1000000000000, none⟩, ⟨"a08", 1000000000000, none⟩, ⟨"a09", 1000000000000, none⟩,
   ⟨"a10", 1000000000000, none⟩, ⟨"a11", 1000000000000, none⟩,
   ⟨"b01", 1000000000000, none⟩, ⟨"b02", 1000000000000, none⟩, ⟨"b03", 1000000000000, none⟩,
   ⟨"b04", 1000000000000, none⟩, ⟨"b05", 1000000000000, none⟩, ⟨"b06", 1000000000000, none⟩,
   ⟨"b07", 1000000000000, none⟩, ⟨"b08", 1000000000000, none⟩, ⟨"b09", 1000000000000, none⟩,
   ⟨"b10", 1000000000000, none⟩]

/-- The loaded state: the 21 records, empty search, page 1 of 3. -/
def cexLoaded : ViewState :=
  { licenses := cexList, searchTerm := "", filterStatus := FilterStatus.all,
    sortConfig := ⟨SortField.expires_at, SortDirection.asc⟩, pageSize := 10, currentPage := 1 }

/-- The state of the counterexample: the user has paged to page 3 of 3. -/
def cexState : ViewState := { cexLoaded with currentPage := 3 }

theorem vt_cexLoaded : viewTotalPages cexLoaded 0 = 3 := by
  rw [viewTotalPages_eq_of _ _ (by decide)]
  decide

theorem cexState_reachable : Reachable cexState 0 := by
  have h1 : Reachable (step initialState (Event.refresh cexList) 0) 0 :=
    Reachable.next (Event.refresh cexList) 0 (Reachable.init 0) trivial
  have e1 : step initialState (Event.refresh cexList) 0 = cexLoaded := by
    rw [step_refresh_eq initialState cexList 0 (viewTotalPages_pos _ _)]
    decide
  rw [e1] at h1
  have h2 : Reachable (step cexLoaded Event.nextPage 0) 0 :=
    Reachable.next Event.nextPage 0 h1 trivial
  have e2 : step cexLoaded Event.nextPage 0 = { cexLoaded with currentPage := 2 } := by
    rw [step_nextPage_eq, vt_cexLoaded]
    decide
  rw [e2] at h2
  have h3 : Reachable (step { cexLoaded with currentPage := 2 } Event.nextPage 0) 0 :=
    Reachable.next Event.nextPage 0 h2 trivial
  have e3 : step { cexLoaded with currentPage := 2 } Event.nextPage 0 = cexState := by
    rw [step_nextPage_eq, viewTotalPages_set_page, vt_cexLoaded]
    decide
  rw [e3] at h3
  exact h3

/-- C6 (counterexample): at the reachable state cexState (21 records,
page size 10, page 3 of 3), typing the search term a shrinks the match
to 11 records, so the fresh totalPages is 2; the reset effect queues
page 1, the clamp effect — reading the stale page 3 of the same render —
queues page 2 afterwards and wins, so the page settles at 2, not at the
1 the claim asserts for every search-term change. -/
theorem c6_counterexample :
    Reachable cexState 0 ∧
    "a" ≠ cexState.searchTerm ∧
    (step cexState (Event.setSearch "a") 0).currentPage = 2 ∧
    (step cexState (Event.setSearch "a") 0).currentPage ≠ 1 := by
  have hvt : viewTotalPages (applyEvent cexState (Event.setSearch "a") 0) 0 = 2 := by
    rw [viewTotalPages_eq_of _ _ (by decide)]
    decide
  have hrf : resetFires cexState (Event.setSearch "a") = true := by decide
  have hset := (step_reset_settle cexState (Event.setSearch "a") 0 hrf).2
  rw [hvt] at hset
  have hv2 : (step cexState (Event.setSearch "a") 0).currentPage = 2 := hset (by decide)
  exact ⟨cexState_reachable, by decide, hv2, by rw [hv2]; decide⟩

/-- C6 (amended): in every reachable view state the current page lies in
[1, totalPages].  When the search term, status filter, or page size
actually changes, the reset effect queues page := 1, but the clamp
effect reads the pre-reset page of the same render and queues
page := totalPages afterwards whenever the fresh totalPages is below the
stored page; that later write wins, so the page settles at 1 exactly
when the stored page is within the fresh totalPages (as in the spec
scenario, where the fresh totalPages is 1) and at the fresh totalPages
otherwise.  Without such a change the clamp alone lowers an
out-of-range page to totalPages. -/
theorem c6_amended (s : ViewState) (t : Int) (hr : Reachable s t) :
    (1 ≤ s.currentPage ∧ s.currentPage ≤ viewTotalPages s t) ∧
    (∀ (t' : Int) (e : Event), resetFires s e = true →
      (s.currentPage ≤ viewTotalPages (applyEvent s e t') t' →
        (step s e t').currentPage = 1) ∧
      (viewTotalPages (applyEvent s e t') t' < s.currentPage →
        (step s e t').currentPage = viewTotalPages (applyEvent s e t') t')) ∧
    (∀ (t' : Int) (e : Event), resetFires s e = false →
      viewTotalPages (applyEvent s e t') t' < (applyEvent s e t').currentPage →
      (step s e t').currentPage = viewTotalPages (applyEvent s e t') t') :=
  ⟨reachable_page_bounds s t hr,
   fun t' e hrf => step_reset_settle s e t' hrf,
   fun t' e hrf h => step_clamp_eq s e t' hrf h⟩

/-- C6 (witness): the invariant at the initial state, and the settled
page 1 after an actual search-term change from there (the stored page 1
is within the fresh totalPages). -/
theorem c6_witness :
    (1 ≤ initialState.currentPage ∧
      initialState.currentPage ≤ viewTotalPages initialState 0) ∧
    (step initialState (Event.setSearch "x") 5).currentPage = 1 :=
  ⟨(c6_amended initialState 0 (Reachable.init 0)).1,
   ((c6_amended initialState 0 (Reachable.init 0)).2.1 5 (Event.setSearch "x") (by decide)).1
     (viewTotalPages_pos (applyEvent initialState (Event.setSearch "x") 5) 5)⟩

/-! ### Authorization -/

theorem lowercase_ne_empty {s : String} (h : s ≠ "") : lowercase s ≠ "" := by
  cases s with
  | mk data =>
    intro hc
    apply h
    have h2 : data.map Char.toLower = [] := congrArg String.data hc
    have h3 : data = [] := List.map_eq_nil_iff.mp h2
    rw [h3]

theorem truthy_some {s : String} (h : s ≠ "") : truthy (some s) = true := by
  simp [truthy, h]

/-- C8: with an empty allow-list every authenticated user (with an
email) is authorized; with a non-empty allow-list a user is authorized
exactly when the lowercased email occurs among the trimmed, lowercased
entries; and a login by a user outside a non-empty allow-list triggers
the automatic signOut, while a listed user (or any user under an empty
list) is not signed out. -/
theorem c8_authorization (raw e : String) (he : e ≠ "") :
    (adminEmails raw = [] → isAuthorized raw (some e) = true) ∧
    (adminEmails raw ≠ [] →
      (isAuthorized raw (some e) = true ↔
        (adminEmails raw).contains (lowercase e) = true)) ∧
    (adminEmails raw ≠ [] → (adminEmails raw).contains (lowercase e) = false →
      (handleLogin raw (SignInResult.success (some e))).signedOut = true) ∧
    ((adminEmails raw).contains (lowercase e) = true →
      (handleLogin raw (SignInResult.success (some e))).signedOut = false) ∧
    (adminEmails raw = [] →
      (handleLogin raw (SignInResult.success (some e))).signedOut = false) := by
  have htr : truthy (some e) = true := truthy_some he
  have htr' : truthy (some (lowercase e)) = true := truthy_some (lowercase_ne_empty he)
  refine ⟨?_, ?_, ?_, ?_, ?_⟩
  · intro h0
    simp [isAuthorized, htr, h0]
  · intro h0
    have hlen : (adminEmails raw).length ≠ 0 := by
      simpa using fun hx => h0 (List.length_eq_zero.mp hx)
    simp [isAuthorized, htr, hlen]
  · intro h0 hcon
    have hlen : 0 < (adminEmails raw).length := by
      cases hh : adminEmails raw with
      | nil => exact absurd hh h0
      | cons a as => simp [hh]
    have hmem : lowercase e ∉ adminEmails raw := by
      simpa [List.contains] using hcon
    simp [handleLogin, Option.map, htr', hlen, hmem]
  · intro hcon
    have hmem : lowercase e ∈ adminEmails raw := by
      simpa [List.contains] using hcon
    simp [handleLogin, Option.map, hmem]
  · intro h0
    simp [handleLogin, Option.map, h0]

/-- C8 (witness): the authorization contract applied at the empty
configuration value and a concrete email. -/
theorem c8_witness :
    ("admin@x.com" : String) ≠ "" ∧
    (adminEmails "" = [] → isAuthorized "" (some "admin@x.com") = true) ∧
    (adminEmails "" = [] →
      (handleLogin "" (SignInResult.success (some "admin@x.com"))).signedOut = false) :=
  ⟨by decide,
   (c8_authorization "" "admin@x.com" (by decide)).1,
   (c8_authorization "" "admin@x.com" (by decide)).2.2.2.2⟩

/-! ### Fetch error handling and dashboard stats -/

/-- C9: a failed refresh records the message in the error state and
leaves the license list untouched; a successful refresh replaces the
list with the fetched data (null coalesced to the empty list) and clears
the error; loading is reset in both outcomes (the finally branch), and
an unauthorized or disconnected call leaves the state unchanged — the
operation is total, never fatal. -/
theorem c9_fetch_error_handling (s : AppState) (msg : String) (d : Option (List License)) :
    ((fetchLicenses true true s (FetchResult.err msg)).licenses = s.licenses ∧
      (fetchLicenses true true s (FetchResult.err msg)).error = some msg ∧
      (fetchLicenses true true s (FetchResult.err msg)).loading = false) ∧
    ((fetchLicenses true true s (FetchResult.ok d)).licenses = d.getD [] ∧
      (fetchLicenses true true s (FetchResult.ok d)).error = none ∧
      (fetchLicenses true true s (FetchResult.ok d)).loading = false) ∧
    fetchLicenses false true s (FetchResult.err msg) = s ∧
    fetchLicenses true false s (FetchResult.err msg) = s :=
  ⟨⟨rfl, rfl, rfl⟩, ⟨rfl, rfl, rfl⟩, rfl, rfl⟩

/-- C10: the dashboard counters do not partition the list through the
classifier: active counts every non-null hwid regardless of expiry,
expired uses a strict past test, available needs a null hwid and a
strictly future expiry; hence a bound expired record is counted in both
active and expired, a record expiring exactly now is counted in neither
expired nor available, and in general total differs from
active + expired + available. -/
theorem c10_stats_counts (l : List License) (now : Int) (r : License) :
    (stats l now).total = l.length ∧
    (stats l now).active = (l.filter (fun x => x.hwid.isSome)).length ∧
    (stats l now).expired = (l.filter (fun x => decide (x.expires_at < now))).length ∧
    (stats l now).available =
      (l.filter (fun x => x.hwid.isNone && decide (now < x.expires_at))).length ∧
    (r.hwid ≠ none → r.expires_at < now →
      (stats [r] now).active = 1 ∧ (stats [r] now).expired = 1) ∧
    (r.expires_at = now →
      (stats [r] now).expired = 0 ∧ (stats [r] now).available = 0) ∧
    (∃ (l₀ : List License) (n₀ : Int),
      (stats l₀ n₀).total ≠
        (stats l₀ n₀).active + (stats l₀ n₀).expired + (stats l₀ n₀).available) := by
  refine ⟨rfl, rfl, rfl, rfl, ?_, ?_, ?_⟩
  · intro h1 h2
    have hs : r.hwid.isSome = true := Option.isSome_iff_ne_none.mpr h1
    constructor <;> simp [stats, List.filter_cons, hs, h2]
  · intro h
    constructor <;> simp [stats, List.filter_cons, h]
  · exact ⟨[License.mk "K" (-1) (some "h")], 0, by decide⟩

/-- C10 (witness): the double-count of a bound, expired record, from the
theorem applied at a concrete record. -/
theorem c10_witness :
    ((License.mk "K" (-1) (some "h")).hwid ≠ none ∧
      (License.mk "K" (-1) (some "h")).expires_at < 0) ∧
    (stats [License.mk "K" (-1) (some "h")] 0).active = 1 ∧
    (stats [License.mk "K" (-1) (some "h")] 0).expired = 1 :=
  ⟨⟨by decide, by decide⟩,
   ((c10_stats_counts [] 0 (License.mk "K" (-1) (some "h"))).2.2.2.2.1
      (by decide) (by decide)).1,
   ((c10_stats_counts [] 0 (License.mk "K" (-1) (some "h"))).2.2.2.2.1
      (by decide) (by decide)).2⟩

end LicenseManager
